import Mathlib

set_option maxRecDepth 8000

/-!
Verification development for the component-registry synchronization CLI
(`scripts/shadcn-ui.tsx`).  The definitions below are a shallow embedding of
the script's pure logic: installer command construction, installer-output
interpretation, name reconciliation, the local-inventory scan (over an explicit
filesystem model), the registry-breakdown summary, and the hand-rolled
positional line diff.  Effectful boundaries (the installer subprocess and the
filesystem) are modelled as explicit inputs: a `SubprocessResult` value stands
for one completed `execSync` call, and a `FileSystem` value stands for the
directory tree visible to `readdirSync`/`statSync`.
-/

/-- Base URL of the remote component registry (source constant `REGISTRY_URL`). -/
def REGISTRY_URL : String := "https://redpanda-ui-registry.netlify.app"

/-- Overwrite directive chosen by `updateComponent`: the source computes
`forceOverwrite ? '--overwrite' : '--overwrite'`, so both branches yield the
same flag. -/
def overwriteFlag (forceOverwrite : Bool) : String :=
  if forceOverwrite then "--overwrite" else "--overwrite"

/-- Command string built by `updateComponent` (the Installer Driver),
line 339 of the script. -/
def updateComponentCommand (componentName : String) (forceOverwrite : Bool) : String :=
  "bun x --bun shadcn@latest add \"" ++ REGISTRY_URL ++ "/r/" ++ componentName ++ "\" "
    ++ overwriteFlag forceOverwrite

/-- Command string built by `verifyComponentMissing` (the Existence Verifier
probe), line 243 of the script: no overwrite directive, stderr folded into
stdout. -/
def verifyCommand (componentName : String) : String :=
  "bun x --bun shadcn@latest add \"" ++ REGISTRY_URL ++ "/r/" ++ componentName ++ "\" 2>&1"

/-- Characters matched by the JavaScript regex class `\s` (the ones that can
occur in installer output). -/
def jsWhitespace (c : Char) : Bool :=
  c = ' ' || c = '\t' || c = '\n' || c = '\r' || c = '\x0B' || c = '\x0C'

/-- Substring test on character lists; models
`String.prototype.includes`. -/
def listHasSubstring (needle : List Char) : List Char → Bool
  | [] => needle.isEmpty
  | c :: cs => needle.isPrefixOf (c :: cs) || listHasSubstring needle cs

/-- `hay.includes(needle)` from the source. -/
def includesSubstring (hay needle : String) : Bool :=
  listHasSubstring needle.toList hay.toList

/-- JavaScript `s.startsWith(pat)`. -/
def jsStartsWith (s pat : String) : Bool :=
  pat.toList.isPrefixOf s.toList

/-- JavaScript `s.endsWith(pat)`. -/
def jsEndsWith (s pat : String) : Bool :=
  pat.toList.isSuffixOf s.toList

/-- Decimal value of a digit run, as `Number.parseInt` reads the capture of
`\d+`. -/
def digitsToNat (digits : List Char) : Nat :=
  digits.foldl (fun acc c => 10 * acc + (c.toNat - '0'.toNat)) 0

/-- One anchored attempt of the regex `/Skipped (\d+) files:/` at the head of
`cs`: the literal `"Skipped "`, a nonempty digit run, then `" files:"`. -/
def matchSkippedCountAt (cs : List Char) : Option Nat :=
  let lit := "Skipped ".toList
  if lit.isPrefixOf cs then
    let rest := cs.drop lit.length
    let digits := rest.takeWhile Char.isDigit
    if digits.isEmpty then none
    else if (" files:".toList).isPrefixOf (rest.drop digits.length) then some (digitsToNat digits)
    else none
  else none

/-- First match of `/Skipped (\d+) files:/` in the output, scanning left to
right (models `output.match(...)` with an unanchored regex). -/
def findSkippedCount : List Char → Option Nat
  | [] => none
  | c :: cs =>
    match matchSkippedCountAt (c :: cs) with
    | some n => some n
    | none => findSkippedCount cs

/-- One attempt of `/^\s*-\s+(src\/[^\s]+)/` at a line start: optional
whitespace (which, as in JavaScript, may span further newlines), a dash, at
least one whitespace character, then the captured `src/`-path, a maximal
nonempty run of non-whitespace characters.  Returns the capture and the text
following the match. -/
def matchDashPathAt (cs : List Char) : Option (List Char × List Char) :=
  match cs.dropWhile jsWhitespace with
  | '-' :: afterDash =>
    let ws := afterDash.takeWhile jsWhitespace
    if ws.isEmpty then none
    else
      let afterWs := afterDash.drop ws.length
      if ("src/".toList).isPrefixOf afterWs then
        let body := (afterWs.drop 4).takeWhile (fun c => !jsWhitespace c)
        if body.isEmpty then none
        else some ("src/".toList ++ body, (afterWs.drop 4).drop body.length)
      else none
  | _ => none

/-- Advance past the next newline, to the next position where the multiline
anchor `^` can match; `none` when no line start remains. -/
def skipPastNewline : List Char → Option (List Char)
  | [] => none
  | c :: cs => if c = '\n' then some cs else skipPastNewline cs

/-- Repeated global matching of `/^\s*-\s+(src\/[^\s]+)/gm`, as the source's
`exec` loop performs it: each attempt happens at a line start, a successful
match resumes after the matched text (hence at the following line start), and a
failed attempt moves to the next line start.  The fuel argument bounds the
recursion; every step consumes at least one character, so `length + 1` fuel is
exact. -/
def scanPaths : Nat → List Char → List (List Char)
  | 0, _ => []
  | fuel + 1, cs =>
    match matchDashPathAt cs with
    | some (capture, rest) =>
      capture ::
        (match skipPastNewline rest with
         | some rest2 => scanPaths fuel rest2
         | none => [])
    | none =>
      match skipPastNewline cs with
      | some cs2 => scanPaths fuel cs2
      | none => []

/-- File paths extracted from the installer output by the line-anchored
pattern (source lines 259-264). -/
def extractFilePaths (output : String) : List String :=
  (scanPaths (output.toList.length + 1) output.toList).map (fun cs => String.mk cs)

/-- Outcome of one completed installer subprocess call: captured combined
output on success, or the thrown error's message on non-zero exit or
exception. -/
inductive SubprocessResult where
  | success (output : String)
  | failure (errorMessage : String)

/-- Interpretation of a successful probe's output, source lines 252-276: when
the output mentions skipped-as-identical files, every branch of the
reconciliation logic answers `false` (component present); otherwise the
installer would write files, so the component is judged missing (`true`). -/
def interpretVerifyOutput (output : String) : Bool :=
  if includesSubstring output "Skipped" && includesSubstring output "files might be identical" then
    match findSkippedCount output.toList with
    | some skippedCount =>
      let filePaths := extractFilePaths output
      if filePaths.length = skippedCount ∧ 0 < skippedCount then false
      else false
    | none => false
  else true

/-- The Existence Verifier `verifyComponentMissing` (source lines 242-286),
given the result of its subprocess call: returns the missing-judgement together
with the list of diagnostic warnings written to the console.  A failed
subprocess is recovered locally (the function still returns, so the session
continues) with judgement `true` and one warning. -/
def verifyComponentMissing (componentName : String) : SubprocessResult → Bool × List String
  | .success output => (interpretVerifyOutput output, [])
  | .failure msg =>
    (true, ["⚠️ Could not verify component \"" ++ componentName ++ "\": " ++ msg])

/-- The missing-judgement alone (the source function's return value). -/
def isMissing (componentName : String) (result : SubprocessResult) : Bool :=
  (verifyComponentMissing componentName result).1

/-- Registry names present verbatim among the local names (source line 296). -/
def exactMatches (registryComponents existingComponents : List String) : List String :=
  registryComponents.filter (fun comp => existingComponents.contains comp)

/-- Registry names with no verbatim local match (source line 297). -/
def potentialMismatches (registryComponents existingComponents : List String) : List String :=
  registryComponents.filter (fun comp => !(existingComponents.contains comp))

/-- The Name Reconciler's partition of the registry names. -/
def partitionComponents (registryComponents existingComponents : List String) :
    List String × List String :=
  (exactMatches registryComponents existingComponents,
   potentialMismatches registryComponents existingComponents)

/-- One installer subprocess invocation performed during a session: a
non-mutating existence probe (`verifyComponentMissing`) or a mutating update
(`updateComponent`). -/
inductive InstallerInvocation where
  | probe (componentName : String)
  | update (componentName : String)
deriving DecidableEq

/-- `getVerifiedMissingComponents` (source lines 288-335): probes every
potential mismatch in order, one subprocess per name, and keeps those the
verifier judges missing.  `probeMissing` abstracts the verifier's judgement for
each name; the second component records the subprocess invocations
performed. -/
def getVerifiedMissingComponents (registryComponents existingComponents : List String)
    (probeMissing : String → Bool) : List String × List InstallerInvocation :=
  let mismatched := potentialMismatches registryComponents existingComponents
  (mismatched.filter probeMissing, mismatched.map InstallerInvocation.probe)

/-- Installer subprocess invocations of a zero-argument session: `loadData`
(source lines 782-801) always runs `getVerifiedMissingComponents`, and with no
arguments no install branch is reached afterwards, so the probes are the only
invocations. -/
def noArgsSessionInvocations (registryComponents existingComponents : List String)
    (probeMissing : String → Bool) : List InstallerInvocation :=
  (getVerifiedMissingComponents registryComponents existingComponents probeMissing).2

/-- The summary view's "Components" category (source lines 671-673). -/
def registryBreakdownComponents (registryComponents : List String) : List String :=
  registryComponents.filter
    (fun name => !(jsStartsWith name "use-") && !(jsEndsWith name "-icon") && name != "theme")

/-- The summary view's "Hooks" category (source line 674). -/
def registryBreakdownHooks (registryComponents : List String) : List String :=
  registryComponents.filter (fun name => jsStartsWith name "use-")

/-- The summary view's icons category (source line 675). -/
def registryBreakdownIcons (registryComponents : List String) : List String :=
  registryComponents.filter (fun name => jsEndsWith name "-icon")

/-- The summary view's theme category (source line 676). -/
def registryBreakdownTheme (registryComponents : List String) : List String :=
  registryComponents.filter (fun name => name == "theme")

/-- Filesystem visible to the Local Inventory Scanner: `readdir` returns the
entries of a directory, or `none` when `readdirSync` would throw (directory
absent or unreadable); `isFile` tells whether `statSync(path).isFile()` holds
for a path. -/
structure FileSystem where
  readdir : String → Option (List String)
  isFile : String → Bool

/-- `join(dirPath, file)` for the relative paths the scanner uses. -/
def joinPath (dir file : String) : String := dir ++ "/" ++ file

/-- `file.replace(ext, '')`: JavaScript `replace` with a string pattern removes
only the first occurrence. -/
def removeFirstOccurrence (pattern : List Char) : List Char → List Char
  | [] => []
  | c :: cs =>
    if pattern.isPrefixOf (c :: cs) then (c :: cs).drop pattern.length
    else c :: removeFirstOccurrence pattern cs

/-- Name contributed by one directory entry (source lines 210-220): the entry
must be a regular file, its name must end with one of the directory's
recognized extensions (the first such extension is removed, at its first
occurrence in the name), and the resulting name must not be `index`. -/
def fileComponentName (fs : FileSystem) (dirPath : String) (extensions : List String)
    (file : String) : Option String :=
  if fs.isFile (joinPath dirPath file) then
    match extensions.find? (fun ext => jsEndsWith file ext) with
    | some ext =>
      let componentName := String.mk (removeFirstOccurrence ext.toList file.toList)
      if componentName != "index" then some componentName else none
    | none => none
  else none

/-- Names contributed by one scanned directory; a directory whose listing
throws contributes nothing (the source's per-directory `try`/`catch`). -/
def scanDir (fs : FileSystem) (dirPath : String) (extensions : List String) : List String :=
  match fs.readdir dirPath with
  | none => []
  | some files => files.filterMap (fileComponentName fs dirPath extensions)

/-- The sentinel `theme` name, contributed when `./src/globals.css` is a
regular file (source lines 229-237). -/
def themeNames (fs : FileSystem) : List String :=
  if fs.isFile "./src/globals.css" then ["theme"] else []

/-- `getExistingComponents` (source lines 196-240): the three fixed
directory scans in order, then the theme sentinel.  Names are pushed into a
plain array; nothing deduplicates them. -/
def getExistingComponents (fs : FileSystem) : List String :=
  scanDir fs "./src/components" [".tsx", ".json"]
    ++ scanDir fs "./src/icons" [".tsx"]
    ++ scanDir fs "./src/hooks" [".ts", ".tsx"]
    ++ themeNames fs

/-- One line of a hunk body, as `generateDiff` pushes it: the source stores the
strings `'-' + line` and `'+' + line` and later recovers the two counts by
filtering on the first character; here the tag is kept structurally and
`DiffLine.render` restores the exact string. -/
inductive DiffLine where
  | removal (text : String)
  | addition (text : String)
deriving DecidableEq

/-- The string the source stores for this hunk line. -/
def DiffLine.render : DiffLine → String
  | .removal text => "-" ++ text
  | .addition text => "+" ++ text

/-- Whether a hunk line is a removal (`line.startsWith('-')` on the rendered
form). -/
def DiffLine.isRemoval : DiffLine → Bool
  | .removal _ => true
  | .addition _ => false

/-- Whether a hunk line is an addition (`line.startsWith('+')` on the rendered
form). -/
def DiffLine.isAddition : DiffLine → Bool
  | .removal _ => false
  | .addition _ => true

/-- One change block of the diff: the 0-based positions at which it opened in
the local and registry line sequences (`hunkLocalStart`, `hunkRegistryStart` in
the source) and its accumulated body lines. -/
structure Hunk where
  localStart : Nat
  registryStart : Nat
  lines : List DiffLine
deriving DecidableEq

/-- `hunkLines.filter(line => line.startsWith('-')).length`. -/
def hunkLocalCount (lines : List DiffLine) : Nat :=
  (lines.filter DiffLine.isRemoval).length

/-- `hunkLines.filter(line => line.startsWith('+')).length`. -/
def hunkRegistryCount (lines : List DiffLine) : Nat :=
  (lines.filter DiffLine.isAddition).length

/-- `lines[i] || ''`: the line at position `i`, or the empty string beyond the
end (`undefined` is falsy, and an empty line is already its own fallback). -/
def lineAt (lines : List String) (i : Nat) : String := lines.getD i ""

/-- Body lines position `i` contributes to the open hunk when the lines
differ there: a removal when `localLines[i] !== undefined` and an addition
when `registryLines[i] !== undefined`. -/
def hunkContribution (localLines registryLines : List String) (i : Nat) : List DiffLine :=
  (if i < localLines.length then [DiffLine.removal (lineAt localLines i)] else [])
    ++ (if i < registryLines.length then [DiffLine.addition (lineAt registryLines i)] else [])

/-- The loop of `generateDiff` (source lines 79-116), walking position `i`
with the currently open hunk as `state` (`none` when `hunkStart === -1`): equal
lines close and emit any open hunk, differing lines open a hunk if necessary
(recording `i` as both start positions) and append the position's
contribution.  The `fuel` argument is `maxLines - i`, so `fuel = 0` is exactly
the loop's exit, where any still-open hunk is flushed. -/
def diffGo (localLines registryLines : List String) :
    Nat → Nat → Option (Nat × Nat × List DiffLine) → List Hunk
  | 0, _, none => []
  | 0, _, some (startL, startR, lines) => [⟨startL, startR, lines⟩]
  | fuel + 1, i, state =>
    if lineAt localLines i = lineAt registryLines i then
      match state with
      | some (startL, startR, lines) =>
        ⟨startL, startR, lines⟩ :: diffGo localLines registryLines fuel (i + 1) none
      | none => diffGo localLines registryLines fuel (i + 1) none
    else
      match state with
      | none =>
        diffGo localLines registryLines fuel (i + 1)
          (some (i, i, hunkContribution localLines registryLines i))
      | some (startL, startR, lines) =>
        diffGo localLines registryLines fuel (i + 1)
          (some (startL, startR, lines ++ hunkContribution localLines registryLines i))

/-- Newline splitting on character lists: JavaScript `content.split('\n')`.
The empty text yields one empty line, and a trailing newline yields a final
empty line. -/
def splitCharsOnNewline : List Char → List (List Char)
  | [] => [[]]
  | c :: cs =>
    if c = '\n' then [] :: splitCharsOnNewline cs
    else
      match splitCharsOnNewline cs with
      | g :: gs => (c :: g) :: gs
      | [] => [[c]]

/-- `content.split('\n')` from the source. -/
def splitLines (content : String) : List String :=
  (splitCharsOnNewline content.toList).map (fun cs => String.mk cs)

/-- The hunks `generateDiff(localContent, registryContent, _)` emits, in
order.  Both contents are split on newlines exactly as the source does. -/
def diffHunks (localContent registryContent : String) : List Hunk :=
  let localLines := splitLines localContent
  let registryLines := splitLines registryContent
  diffGo localLines registryLines (max localLines.length registryLines.length) 0 none

/-- Rendered text lines of one hunk: the `@@ -a,c +b,d @@` header (1-based
starts) followed by the body. -/
def renderHunk (h : Hunk) : List String :=
  ("@@ -" ++ toString (h.localStart + 1) ++ "," ++ toString (hunkLocalCount h.lines)
      ++ " +" ++ toString (h.registryStart + 1) ++ "," ++ toString (hunkRegistryCount h.lines)
      ++ " @@")
    :: h.lines.map DiffLine.render

/-- `generateDiff` (source lines 64-119): the two file headers followed by the
rendered hunks, joined by newlines. -/
def generateDiff (localContent registryContent fileName : String) : String :=
  String.intercalate "\n"
    (("--- a/" ++ fileName) :: ("+++ b/" ++ fileName)
      :: ((diffHunks localContent registryContent).map renderHunk).flatten)

/-- The lines carried by a hunk's `+` entries, in order. -/
def hunkAdditions (lines : List DiffLine) : List String :=
  lines.filterMap fun l =>
    match l with
    | .addition text => some text
    | .removal _ => none

/-- Applying a list of hunks onto the local line sequence, as the round-trip
claim prescribes: walk the hunks in order with a cursor into the local lines;
local lines before a hunk's start are kept, each `-` line deletes the local
line it was copied from (so the cursor skips one local line per removal), and
the `+` lines are inserted in their place. -/
def applyHunks (localLines : List String) : List Hunk → Nat → List String
  | [], cursor => localLines.drop cursor
  | h :: hs, cursor =>
    (localLines.drop cursor).take (h.localStart - cursor)
      ++ hunkAdditions h.lines
      ++ applyHunks localLines hs (h.localStart + hunkLocalCount h.lines)

/-- A successful probe output from the installer that declares two skipped
files and lists both of them. -/
def skippedTwoOutput : String :=
  "Skipped 2 files: (files might be identical, use --overwrite to overwrite)\n  - src/components/card.tsx\n  - src/components/badge.tsx"

/-- A successful probe output that declares three skipped files but lists only
two path lines. -/
def skippedThreeOutput : String :=
  "Skipped 3 files: (files might be identical, use --overwrite to overwrite)\n  - src/components/card.tsx\n  - src/components/badge.tsx"

/-- A successful probe output that mentions skipped-as-identical files but
declares a skipped count of zero (and lists no path lines). -/
def skippedZeroOutput : String :=
  "Skipped 0 files: (files might be identical)"

/-- Whether an installer invocation is a non-mutating existence probe. -/
def InstallerInvocation.isProbe : InstallerInvocation → Bool
  | .probe _ => true
  | .update _ => false

/-- A filesystem on which the same base name is present in one scanned
directory with two recognized extensions. -/
def duplicateNameFs : FileSystem where
  readdir := fun d => if d = "./src/components" then some ["card.tsx", "card.json"] else none
  isFile := fun p => p = "./src/components/card.tsx" || p = "./src/components/card.json"

/-- Number of entries of one scanned directory that contribute the name `x`. -/
def matchingFileCount (fs : FileSystem) (dirPath : String) (extensions : List String)
    (x : String) : Nat :=
  (((fs.readdir dirPath).getD []).filter
    (fun file => fileComponentName fs dirPath extensions file == some x)).length

/-- A filesystem whose `src/components` directory is absent while the other
scanned locations exist. -/
def absentComponentsFs : FileSystem where
  readdir := fun d =>
    if d = "./src/icons" then some ["spinner-icon.tsx"]
    else if d = "./src/hooks" then some ["use-toast.ts"]
    else none
  isFile := fun p =>
    p = "./src/icons/spinner-icon.tsx" || p = "./src/hooks/use-toast.ts" || p = "./src/globals.css"

/-- Helper: filtering a list by a predicate and by its negation splits every
element's multiplicity. -/
theorem count_filter_split (x : String) (p : String → Bool) (l : List String) :
    (l.filter p).count x + (l.filter (fun a => !(p a))).count x = l.count x := by
  induction l with
  | nil => rfl
  | cons a as ih =>
    by_cases hp : p a = true <;>
      by_cases hx : (a == x) = true <;>
        simp [List.filter_cons, hp, hx, List.count_cons] <;> omega

/-- C2 (confirmed): for both values of the `force` argument the Installer
Driver constructs the identical command string, because both branches of the
flag conditional yield the overwrite directive. -/
theorem installer_driver_overwrite_always (componentName : String) :
    updateComponentCommand componentName true = updateComponentCommand componentName false :=
  rfl

/-- C6 (confirmed): when the probe subprocess fails, the Existence Verifier
judges the component missing, emits exactly one diagnostic warning, and
returns normally (the error is absorbed into the returned value, so the
session continues). -/
theorem verify_failure_defaults_to_missing_with_warning (componentName errorMessage : String) :
    (verifyComponentMissing componentName (.failure errorMessage)).1 = true ∧
      (verifyComponentMissing componentName (.failure errorMessage)).2 =
        ["⚠️ Could not verify component \"" ++ componentName ++ "\": " ++ errorMessage] ∧
      (verifyComponentMissing componentName (.failure errorMessage)).2 ≠ [] :=
  ⟨rfl, rfl, by simp [verifyComponentMissing]⟩

/-- C1 (corrected), counterexample: an output that mentions skipped-as-identical
files and declares a skipped count of zero falls outside the claim's first two
cases (the declared count is not greater than zero and the extracted count,
zero, equals it), so the claim's final case demands `isMissing = true`; the
code instead falls through to the conservative `return false`. -/
theorem existence_verifier_zero_count_judged_present :
    findSkippedCount skippedZeroOutput.toList = some 0 ∧
      (extractFilePaths skippedZeroOutput).length = 0 ∧
      isMissing "button" (.success skippedZeroOutput) = false := by
  refine ⟨by decide, by decide, by decide⟩

/-- C1 (corrected), amended claim: on a successful probe, `isMissing` returns
`false` exactly when the output mentions skipped-as-identical files (contains
both `Skipped` and `files might be identical`) — every branch of the
count-reconciliation logic returns `false`, including equal positive counts,
mismatched counts, a declared count of zero, and an unparseable count — and
returns `true` in all other successful cases. -/
theorem existence_verifier_success_judgement (componentName output : String) :
    isMissing componentName (.success output) =
      !(includesSubstring output "Skipped" && includesSubstring output "files might be identical") := by
  simp only [isMissing, verifyComponentMissing, interpretVerifyOutput]
  by_cases h :
      (includesSubstring output "Skipped" && includesSubstring output "files might be identical") = true
  · simp only [h, if_true, Bool.not_true]
    cases findSkippedCount output.toList <;> simp
  · simp only [Bool.not_eq_true] at h
    simp [h]

/-- C5 (corrected), counterexample: with three files declared skipped but only
two matching path lines extracted, the claim requires `isMissing` to return
`true`; the code's inner reconciliation test fails but control falls through to
the conservative `return false`, so the component is judged present. -/
theorem skipped_count_mismatch_judged_present :
    findSkippedCount skippedThreeOutput.toList = some 3 ∧
      (extractFilePaths skippedThreeOutput).length = 2 ∧
      isMissing "card" (.success skippedThreeOutput) = false := by
  refine ⟨by decide, by decide, by decide⟩

/-- C5 (corrected), amended claim: for installer output mentioning
skipped-as-identical files, `Skipped 2 files:` followed by exactly two matching
path lines yields `isMissing = false`, and three declared with only two listed
also yields `isMissing = false` — a count mismatch is judged present as well,
per the conservative fall-through. -/
theorem skipped_count_scenarios_judged_present :
    (findSkippedCount skippedTwoOutput.toList = some 2 ∧
        (extractFilePaths skippedTwoOutput).length = 2 ∧
        isMissing "card" (.success skippedTwoOutput) = false) ∧
      isMissing "card" (.success skippedThreeOutput) = false := by
  refine ⟨⟨by decide, by decide, by decide⟩, by decide⟩

/-- C4 (confirmed): the Name Reconciler's partition places every registry name
in exactly one output list (multiplicities of `exact` and `mismatched` sum to
the multiplicity in the registry list), `exact` holds precisely the registry
names present locally, `mismatched` precisely the others, both outputs are
sublists of the registry list (so its relative order is preserved), and the
result is a pure function of its inputs. -/
theorem partition_exact_and_mismatched_spec (registryNames localNames : List String) :
    (partitionComponents registryNames localNames).1.Sublist registryNames ∧
      (partitionComponents registryNames localNames).2.Sublist registryNames ∧
      (∀ x, x ∈ (partitionComponents registryNames localNames).1 ↔
        x ∈ registryNames ∧ x ∈ localNames) ∧
      (∀ x, x ∈ (partitionComponents registryNames localNames).2 ↔
        x ∈ registryNames ∧ x ∉ localNames) ∧
      (∀ x, (partitionComponents registryNames localNames).1.count x +
          (partitionComponents registryNames localNames).2.count x = registryNames.count x) := by
  refine ⟨List.filter_sublist registryNames, List.filter_sublist registryNames, ?_, ?_, ?_⟩
  · intro x
    simp [partitionComponents, exactMatches, List.mem_filter, List.elem_iff]
  · intro x
    simp [partitionComponents, potentialMismatches, List.mem_filter, List.elem_iff]
  · intro x
    exact count_filter_split x (fun comp => localNames.contains comp) registryNames

/-- C7 (corrected), counterexample: a registry name that both starts with
`use-` and ends with `-icon` is counted in the hooks and the icons categories,
so the four category counts sum to more than the total; and a zero-argument
session with that name unmatched locally spawns a probe subprocess, so the
session does invoke the installer. -/
theorem no_args_summary_counterexample :
    (["use-mobile-icon"] : List String).length ≠
        (registryBreakdownComponents ["use-mobile-icon"]).length
          + (registryBreakdownHooks ["use-mobile-icon"]).length
          + (registryBreakdownIcons ["use-mobile-icon"]).length
          + (registryBreakdownTheme ["use-mobile-icon"]).length ∧
      noArgsSessionInvocations ["use-mobile-icon"] [] (fun _ => true) ≠ [] := by
  refine ⟨by decide, by decide⟩

/-- C7 (corrected), amended claim: in a zero-argument session the summary
view's total registry count equals the sum of the four category counts
provided no registry name both starts with `use-` and ends with `-icon` (the
hooks and icons categories overlap on such names), and the session performs no
mutating install invocation — every installer subprocess it spawns is a
non-mutating existence probe (one per registry name without an exact local
match). -/
theorem no_args_summary_breakdown (registryComponents existingComponents : List String)
    (probeMissing : String → Bool)
    (hsep : ∀ name ∈ registryComponents,
      ¬(jsStartsWith name "use-" = true ∧ jsEndsWith name "-icon" = true)) :
    registryComponents.length =
        (registryBreakdownComponents registryComponents).length
          + (registryBreakdownHooks registryComponents).length
          + (registryBreakdownIcons registryComponents).length
          + (registryBreakdownTheme registryComponents).length ∧
      (noArgsSessionInvocations registryComponents existingComponents probeMissing).all
        InstallerInvocation.isProbe = true := by
  constructor
  · induction registryComponents with
    | nil => rfl
    | cons a as ih =>
      have hd := hsep a (List.mem_cons_self a as)
      have ih' := ih (fun n hn => hsep n (List.mem_cons_of_mem a hn))
      simp only [registryBreakdownComponents, registryBreakdownHooks, registryBreakdownIcons,
        registryBreakdownTheme] at ih' ⊢
      by_cases hth : a = "theme"
      · subst hth
        have hu : jsStartsWith "theme" "use-" = false := by decide
        have hic : jsEndsWith "theme" "-icon" = false := by decide
        simp [List.filter_cons, hu, hic]
        omega
      · by_cases hu : jsStartsWith a "use-" = true
        · have hic : jsEndsWith a "-icon" = false := by
            cases hic : jsEndsWith a "-icon"
            · rfl
            · exact absurd ⟨hu, hic⟩ hd
          simp [List.filter_cons, hu, hic, hth]
          omega
        · by_cases hic : jsEndsWith a "-icon" = true
          · simp [List.filter_cons, hu, hic, hth]
            omega
          · simp [List.filter_cons, hu, hic, hth]
            omega
  · simp only [noArgsSessionInvocations, getVerifiedMissingComponents, List.all_eq_true]
    intro inv hinv
    rcases List.mem_map.mp hinv with ⟨name, -, rfl⟩
    rfl

/-- C7 witness: a registry with one name per category, none locally matched,
satisfies the separation hypothesis; the total is the category sum and all four
probes are non-mutating. -/
theorem no_args_summary_breakdown_witness :
    (["card", "use-mobile", "chart-icon", "theme"] : List String).length =
        (registryBreakdownComponents ["card", "use-mobile", "chart-icon", "theme"]).length
          + (registryBreakdownHooks ["card", "use-mobile", "chart-icon", "theme"]).length
          + (registryBreakdownIcons ["card", "use-mobile", "chart-icon", "theme"]).length
          + (registryBreakdownTheme ["card", "use-mobile", "chart-icon", "theme"]).length ∧
      (noArgsSessionInvocations ["card", "use-mobile", "chart-icon", "theme"] []
          (fun _ => true)).all InstallerInvocation.isProbe = true :=
  no_args_summary_breakdown ["card", "use-mobile", "chart-icon", "theme"] [] (fun _ => true)
    (by decide)

/-- C8 (corrected), counterexample: with `card.tsx` and `card.json` both
present under `src/components`, the scan returns the name `card` twice — the
result is a plain array built by `push`, not a set. -/
theorem scan_duplicates_counterexample :
    getExistingComponents duplicateNameFs = ["card", "card"] ∧
      ¬(getExistingComponents duplicateNameFs).Nodup := by
  refine ⟨by decide, by decide⟩

/-- Helper: multiplicity of a value in a `filterMap` counts the list entries
mapped onto it. -/
theorem count_filterMap_eq (f : String → Option String) (l : List String) (x : String) :
    (l.filterMap f).count x = (l.filter (fun a => f a == some x)).length := by
  induction l with
  | nil => rfl
  | cons a as ih =>
    cases h : f a with
    | none => simp [List.filterMap_cons, List.filter_cons, h, ih]
    | some b =>
      by_cases hb : (b == x) = true
      · simp [List.filterMap_cons, List.filter_cons, h, hb, List.count_cons, ih]
      · simp [List.filterMap_cons, List.filter_cons, h, hb, List.count_cons, ih]

/-- C8 (corrected), amended claim: the scan result is not deduplicated — each
directory entry that passes the file, extension and `index` tests contributes
exactly one occurrence of its derived name, so the multiplicity of a name in
`scan()`'s result equals the number of matching files across the three scanned
directories, plus one for the `theme` sentinel when the global stylesheet
exists. -/
theorem scan_multiplicity_per_file (fs : FileSystem) (x : String) :
    (getExistingComponents fs).count x =
      matchingFileCount fs "./src/components" [".tsx", ".json"] x
        + matchingFileCount fs "./src/icons" [".tsx"] x
        + matchingFileCount fs "./src/hooks" [".ts", ".tsx"] x
        + (if fs.isFile "./src/globals.css" ∧ x = "theme" then 1 else 0) := by
  have hdir : ∀ dirPath extensions,
      (scanDir fs dirPath extensions).count x = matchingFileCount fs dirPath extensions x := by
    intro dirPath extensions
    unfold scanDir matchingFileCount
    cases fs.readdir dirPath with
    | none => rfl
    | some files => exact count_filterMap_eq _ files x
  have htheme : (themeNames fs).count x =
      (if fs.isFile "./src/globals.css" ∧ x = "theme" then 1 else 0) := by
    unfold themeNames
    by_cases hg : fs.isFile "./src/globals.css" = true
    · by_cases hx : x = "theme"
      · subst hx
        simp [hg, List.count_cons]
      · simp [hg, hx, List.count_cons, Ne.symm hx]
    · simp [hg]
  simp only [getExistingComponents, List.count_append, hdir, htheme]

/-- C9 (confirmed): the scan is a total function of the filesystem — a listed
directory whose listing fails (absent or unreadable, `readdir` returning
`none`) contributes zero names, and the remaining directories' contributions
and the theme sentinel are exactly those of the ordinary scan; no error is
propagated. -/
theorem scan_absent_directory_contributes_nothing (fs : FileSystem) :
    (fs.readdir "./src/components" = none →
      getExistingComponents fs =
        scanDir fs "./src/icons" [".tsx"] ++ scanDir fs "./src/hooks" [".ts", ".tsx"]
          ++ themeNames fs) ∧
      (fs.readdir "./src/icons" = none →
        getExistingComponents fs =
          scanDir fs "./src/components" [".tsx", ".json"]
            ++ scanDir fs "./src/hooks" [".ts", ".tsx"] ++ themeNames fs) ∧
      (fs.readdir "./src/hooks" = none →
        getExistingComponents fs =
          scanDir fs "./src/components" [".tsx", ".json"] ++ scanDir fs "./src/icons" [".tsx"]
            ++ themeNames fs) := by
  refine ⟨fun h => ?_, fun h => ?_, fun h => ?_⟩ <;>
    simp [getExistingComponents, scanDir, h]

/-- C9 witness: on a filesystem with `src/components` absent, the scan equals
the contributions of the two remaining directories plus the theme sentinel,
and evaluates to the expected names. -/
theorem scan_absent_directory_witness :
    (getExistingComponents absentComponentsFs =
        scanDir absentComponentsFs "./src/icons" [".tsx"]
          ++ scanDir absentComponentsFs "./src/hooks" [".ts", ".tsx"]
          ++ themeNames absentComponentsFs) ∧
      getExistingComponents absentComponentsFs = ["spinner-icon", "use-toast", "theme"] :=
  ⟨(scan_absent_directory_contributes_nothing absentComponentsFs).1 rfl, by decide⟩

theorem hunkLocalCount_append (a b : List DiffLine) :
    hunkLocalCount (a ++ b) = hunkLocalCount a + hunkLocalCount b := by
  simp [hunkLocalCount, List.filter_append]

theorem hunkAdditions_append (a b : List DiffLine) :
    hunkAdditions (a ++ b) = hunkAdditions a ++ hunkAdditions b := by
  simp [hunkAdditions, List.filterMap_append]

theorem hunkLocalCount_contribution (L R : List String) (i : Nat) :
    hunkLocalCount (hunkContribution L R i) = if i < L.length then 1 else 0 := by
  by_cases hL : i < L.length <;> by_cases hR : i < R.length <;>
    simp [hunkContribution, hunkLocalCount, hL, hR, List.filter_append, DiffLine.isRemoval]

theorem hunkAdditions_contribution (L R : List String) (i : Nat) :
    hunkAdditions (hunkContribution L R i) = if i < R.length then [lineAt R i] else [] := by
  by_cases hL : i < L.length <;> by_cases hR : i < R.length <;>
    simp [hunkContribution, hunkAdditions, hL, hR, List.filterMap_append]

theorem diffGo_start_le (L R : List String) :
    ∀ fuel i state b,
      (state = none → b ≤ i) →
      (∀ sL sR ls, state = some (sL, sR, ls) → b ≤ sL ∧ sL ≤ i) →
      ∀ h ∈ diffGo L R fuel i state, b ≤ h.localStart := by
  intro fuel
  induction fuel with
  | zero =>
    intro i state b h1 h2 h hmem
    cases state with
    | none => simp [diffGo] at hmem
    | some s =>
      obtain ⟨sL, sR, ls⟩ := s
      simp [diffGo] at hmem
      subst hmem
      exact (h2 sL sR ls rfl).1
  | succ fuel ih =>
    intro i state b h1 h2 h hmem
    cases state with
    | none =>
      simp only [diffGo] at hmem
      split at hmem
      · exact ih (i + 1) none b (fun _ => by have := h1 rfl; omega)
          (fun _ _ _ hc => by simp at hc) h hmem
      · exact ih (i + 1) (some (i, i, hunkContribution L R i)) b
          (fun hc => by simp at hc)
          (fun sL sR ls hc => by
            injection hc with hc
            injection hc with hc1 hc2
            injection hc2 with hc2 hc3
            subst hc1
            exact ⟨h1 rfl, by omega⟩) h hmem
    | some s =>
      obtain ⟨sL, sR, ls⟩ := s
      simp only [diffGo] at hmem
      split at hmem
      · rcases List.mem_cons.mp hmem with hh | hh
        · subst hh
          exact (h2 sL sR ls rfl).1
        · exact ih (i + 1) none b
            (fun _ => by have := h2 sL sR ls rfl; omega)
            (fun _ _ _ hc => by simp at hc) h hh
      · exact ih (i + 1) (some (sL, sR, ls ++ hunkContribution L R i)) b
          (fun hc => by simp at hc)
          (fun sL' sR' ls' hc => by
            injection hc with hc
            injection hc with hc1 hc2
            subst hc1
            have := h2 sL sR ls rfl
            exact ⟨this.1, by omega⟩) h hmem

theorem applyHunks_cons_of_lt (L : List String) (hs : List Hunk) (c : Nat)
    (hc : c < L.length) (hstart : ∀ h ∈ hs, c + 1 ≤ h.localStart) :
    applyHunks L hs c = lineAt L c :: applyHunks L hs (c + 1) := by
  cases hs with
  | nil =>
    simp only [applyHunks]
    rw [List.drop_eq_getElem_cons hc, lineAt, List.getD_eq_getElem L "" hc]
  | cons h hs =>
    have h1 : c + 1 ≤ h.localStart := hstart h (List.mem_cons_self h hs)
    simp only [applyHunks]
    rw [List.drop_eq_getElem_cons hc]
    have h2 : h.localStart - c = (h.localStart - (c + 1)) + 1 := by omega
    rw [h2, List.take_succ_cons, lineAt, List.getD_eq_getElem L "" hc]
    simp

theorem take_drop_append_drop (R : List String) (s i : Nat) (hsi : s ≤ i) :
    (R.take i).drop s ++ R.drop i = R.drop s := by
  by_cases hi : i ≤ R.length
  · have hlen : (R.take i).length = i := by
      simp [List.length_take]
      omega
    conv_rhs => rw [← List.take_append_drop i R]
    rw [List.drop_append_eq_append_drop, hlen]
    have h0 : s - i = 0 := by omega
    rw [h0, List.drop_zero]
  · push_neg at hi
    rw [List.take_of_length_le (show R.length ≤ i by omega),
      List.drop_eq_nil_of_le (show R.length ≤ i by omega)]
    simp

theorem take_succ_drop (R : List String) (s i : Nat) (hsi : s ≤ i) :
    (R.take (i + 1)).drop s
      = (R.take i).drop s ++ (if i < R.length then [lineAt R i] else []) := by
  by_cases hi : i < R.length
  · rw [if_pos hi, List.take_succ]
    have hsome : R[i]?.toList = [R[i]] := by
      simp [List.getElem?_eq_getElem hi]
    rw [hsome, List.drop_append_eq_append_drop]
    have hlen : (R.take i).length = i := by
      simp [List.length_take]
      omega
    rw [hlen]
    have h0 : s - i = 0 := by omega
    rw [h0, List.drop_zero, lineAt, List.getD_eq_getElem R "" hi]
  · rw [if_neg hi]
    push_neg at hi
    rw [List.take_of_length_le (by omega), List.take_of_length_le (by omega)]
    simp

theorem diffGo_apply (L R : List String)
    (Htail : ∀ i, i < max L.length R.length → min L.length R.length ≤ i →
      lineAt L i ≠ lineAt R i) :
    ∀ fuel i, fuel + i = max L.length R.length →
      (applyHunks L (diffGo L R fuel i none) i = R.drop i) ∧
      (∀ sL sR ls, sL ≤ i →
        hunkLocalCount ls = min i L.length - sL →
        hunkAdditions ls = (R.take i).drop sL →
        applyHunks L (diffGo L R fuel i (some (sL, sR, ls))) sL = R.drop sL) := by
  intro fuel
  induction fuel with
  | zero =>
    intro i hi
    constructor
    · simp only [diffGo, applyHunks]
      rw [List.drop_eq_nil_of_le (show L.length ≤ i by omega),
        List.drop_eq_nil_of_le (show R.length ≤ i by omega)]
    · intro sL sR ls hsl hcount hadd
      simp only [diffGo, applyHunks]
      rw [Nat.sub_self, List.take_zero, List.nil_append, hadd, hcount]
      rw [List.take_of_length_le (show R.length ≤ i by omega)]
      rw [List.drop_eq_nil_of_le (show L.length ≤ sL + (min i L.length - sL) by omega)]
      simp
  | succ fuel ih =>
    intro i hi
    have hilt : i < max L.length R.length := by omega
    obtain ⟨ih1, ih2⟩ := ih (i + 1) (by omega)
    by_cases heq : lineAt L i = lineAt R i
    · have hmin : i < min L.length R.length := by
        by_contra hmin
        exact Htail i hilt (by omega) heq
      have hiL : i < L.length := by omega
      have hiR : i < R.length := by omega
      have hbound : ∀ h ∈ diffGo L R fuel (i + 1) none, i + 1 ≤ h.localStart :=
        fun h hm => diffGo_start_le L R fuel (i + 1) none (i + 1) (fun _ => le_refl _)
          (fun _ _ _ hc => by simp at hc) h hm
      have hdropR : R.drop i = lineAt R i :: R.drop (i + 1) := by
        rw [List.drop_eq_getElem_cons hiR, lineAt, List.getD_eq_getElem R "" hiR]
      constructor
      · simp only [diffGo, if_pos heq]
        rw [applyHunks_cons_of_lt L _ i hiL hbound, ih1, heq, ← hdropR]
      · intro sL sR ls hsl hcount hadd
        simp only [diffGo, if_pos heq, applyHunks]
        rw [Nat.sub_self, List.take_zero, List.nil_append, hcount, hadd]
        have hcursor : sL + (min i L.length - sL) = i := by omega
        rw [hcursor, applyHunks_cons_of_lt L _ i hiL hbound, ih1, heq, ← hdropR]
        exact take_drop_append_drop R sL i hsl
    · constructor
      · simp only [diffGo, if_neg heq]
        apply ih2 i i _ (by omega)
        · rw [hunkLocalCount_contribution]
          by_cases hiL : i < L.length <;> simp [hiL] <;> omega
        · rw [hunkAdditions_contribution, take_succ_drop R i i (le_refl i)]
          rw [List.drop_eq_nil_of_le (show (R.take i).length ≤ i by
            simp [List.length_take])]
          simp
      · intro sL sR ls hsl hcount hadd
        simp only [diffGo, if_neg heq]
        apply ih2 sL sR _ (by omega)
        · rw [hunkLocalCount_append, hcount, hunkLocalCount_contribution]
          by_cases hiL : i < L.length <;> simp [hiL] <;> omega
        · rw [hunkAdditions_append, hadd, hunkAdditions_contribution,
            take_succ_drop R sL i hsl]

/-- C3 (corrected), counterexample: for local text `a` and registry text
`a\n` the positional comparison sees the registry's trailing empty line as
equal to the local side's out-of-range fallback `''`, so no hunk is emitted;
applying the empty hunk list to the local text leaves `a`, which is not the
registry text `a\n` (whose line sequence is `["a", ""]`). -/
theorem diff_round_trip_counterexample :
    diffHunks "a" "a\n" = [] ∧
      applyHunks (splitLines "a") (diffHunks "a" "a\n") 0 = ["a"] ∧
      splitLines "a\n" = ["a", ""] ∧
      applyHunks (splitLines "a") (diffHunks "a" "a\n") 0 ≠ splitLines "a\n" := by
  refine ⟨by decide, by decide, by decide, by decide⟩

/-- C3 (corrected), amended claim: applying the emitted hunks back onto the
local line sequence — keeping lines before each hunk, deleting the lines its
`-` entries carry and inserting the lines its `+` entries carry, in order —
reconstructs the registry text's exact line sequence, provided the two texts
disagree at every shared position beyond the shorter line count (equivalently:
the longer text has no empty line at a position past the shorter text's end,
the one situation in which the positional comparison conflates a real line
with the out-of-range fallback). -/
theorem diff_apply_round_trip (localContent registryContent : String)
    (htail : ∀ i, i < max (splitLines localContent).length (splitLines registryContent).length →
      min (splitLines localContent).length (splitLines registryContent).length ≤ i →
      lineAt (splitLines localContent) i ≠ lineAt (splitLines registryContent) i) :
    applyHunks (splitLines localContent) (diffHunks localContent registryContent) 0 =
      splitLines registryContent := by
  have h := (diffGo_apply (splitLines localContent) (splitLines registryContent) htail
      (max (splitLines localContent).length (splitLines registryContent).length) 0
      (by omega)).1
  simpa [diffHunks] using h

/-- C3 witness: for local `alpha` and registry `beta\ngamma` the side
condition holds (the registry's extra line `gamma` is nonempty), and applying
the single emitted hunk rebuilds the registry lines exactly. -/
theorem diff_apply_round_trip_witness :
    (applyHunks (splitLines "alpha") (diffHunks "alpha" "beta\ngamma") 0 =
        splitLines "beta\ngamma") ∧
      applyHunks (splitLines "alpha") (diffHunks "alpha" "beta\ngamma") 0 = ["beta", "gamma"] :=
  ⟨diff_apply_round_trip "alpha" "beta\ngamma" (by decide), by decide⟩

theorem diffGo_start_eq (L R : List String) :
    ∀ fuel i state,
      (∀ sL sR ls, state = some (sL, sR, ls) → sL = sR) →
      ∀ h ∈ diffGo L R fuel i state, h.localStart = h.registryStart := by
  intro fuel
  induction fuel with
  | zero =>
    intro i state hst h hmem
    cases state with
    | none => simp [diffGo] at hmem
    | some s =>
      obtain ⟨sL, sR, ls⟩ := s
      simp [diffGo] at hmem
      subst hmem
      exact hst sL sR ls rfl
  | succ fuel ih =>
    intro i state hst h hmem
    cases state with
    | none =>
      simp only [diffGo] at hmem
      split at hmem
      · exact ih (i + 1) none (fun _ _ _ hc => by simp at hc) h hmem
      · exact ih (i + 1) (some (i, i, hunkContribution L R i))
          (fun sL sR ls hc => by
            injection hc with hc
            injection hc with hc1 hc2
            injection hc2 with hc2 hc3
            omega) h hmem
    | some s =>
      obtain ⟨sL, sR, ls⟩ := s
      simp only [diffGo] at hmem
      split at hmem
      · rcases List.mem_cons.mp hmem with hh | hh
        · subst hh
          exact hst sL sR ls rfl
        · exact ih (i + 1) none (fun _ _ _ hc => by simp at hc) h hh
      · exact ih (i + 1) (some (sL, sR, ls ++ hunkContribution L R i))
          (fun sL' sR' ls' hc => by
            injection hc with hc
            injection hc with hc1 hc2
            injection hc2 with hc2 hc3
            have := hst sL sR ls rfl
            omega) h hmem

/-- C10 (confirmed): in every hunk the diff emits, the local and registry
start positions coincide — the source assigns both `hunkLocalStart` and
`hunkRegistryStart` the shared loop index at which the hunk opened, so the
rendered header `@@ -a,c +b,d @@` always has `a = b` (both are the start
position plus one). -/
theorem hunk_header_starts_equal (localContent registryContent fileName : String) :
    ∀ h ∈ diffHunks localContent registryContent, h.localStart = h.registryStart := by
  intro h hmem
  have := fileName
  exact diffGo_start_eq (splitLines localContent) (splitLines registryContent)
    (max (splitLines localContent).length (splitLines registryContent).length) 0 none
    (fun _ _ _ hc => by simp at hc) h (by simpa [diffHunks] using hmem)

/-- C10 witness: the single hunk emitted for `alpha` versus `beta` has equal
start positions, obtained by applying the header theorem to that concrete
hunk. -/
theorem hunk_header_starts_equal_witness :
    diffHunks "alpha" "beta" = [⟨0, 0, [DiffLine.removal "alpha", DiffLine.addition "beta"]⟩] ∧
      (Hunk.mk 0 0 [DiffLine.removal "alpha", DiffLine.addition "beta"]).localStart =
        (Hunk.mk 0 0 [DiffLine.removal "alpha", DiffLine.addition "beta"]).registryStart :=
  ⟨by decide,
    hunk_header_starts_equal "alpha" "beta" "file.tsx"
      ⟨0, 0, [DiffLine.removal "alpha", DiffLine.addition "beta"]⟩ (by decide)⟩
